import Mathlib

/-!
# Verification of the webgpu-tinkering model/renderer core

A shallow embedding of the Rust sources (`src/models.rs`, `src/renderer.rs`,
`src/winit_app.rs`) of the 3D model viewer:

* `Camera` (orbit camera with pitch clamp and view-projection matrix),
* `Model` (meshes, materials, translation/rotation/scaling, transform matrix,
  derived per-vertex render data),
* `Scene` (models, insertion-ordered texture map, camera),
* `Renderer` (bind group layout, vertex layout, per-frame resources, draw
  submission).

`f32` arithmetic is modelled by exact real arithmetic; `usize`/`u32` values by
`Nat`, with an explicit `% 2 ^ 32` wherever the source performs an `as u32`
cast.  External library calls (`nalgebra` matrix constructors, slice
`chunks_exact`, `itertools::izip`, `indexmap::IndexMap`) are modelled from
their documented semantics.
-/

/-! ## Byte layout of `VertexData` (`renderer.rs`)

The Rust record is `#[repr(C)] struct VertexData { position: [f32; 3],
normal: [f32; 3], uv: [f32; 2], model_idx: u32 }`.  We compute its `repr(C)`
field offsets and size from the (size, alignment) of each field. -/

/-- Round `n` up to the next multiple of the alignment `a`. -/
def alignUp (n a : ℕ) : ℕ := (n + a - 1) / a * a

/-- `repr(C)` layout: given the (size, alignment) list of the fields, returns
the list of field byte offsets and the total struct size (end of last field
rounded up to the maximal field alignment). -/
def reprCLayout (fields : List (ℕ × ℕ)) : List ℕ × ℕ :=
  let st := fields.foldl
    (fun (acc : List ℕ × ℕ × ℕ) (fld : ℕ × ℕ) =>
      let off := alignUp acc.2.1 fld.2
      (acc.1 ++ [off], off + fld.1, max acc.2.2 fld.2))
    ([], 0, 1)
  (st.1, alignUp st.2.1 st.2.2)

/-- The fields of `VertexData`: `[f32; 3]`, `[f32; 3]`, `[f32; 2]`, `u32`,
each with size `4 * n` and alignment 4. -/
def vertexDataFields : List (ℕ × ℕ) := [(3 * 4, 4), (3 * 4, 4), (2 * 4, 4), (1 * 4, 4)]

/-- Byte offsets of the four `VertexData` fields under `repr(C)`. -/
def vertexDataOffsets : List ℕ := (reprCLayout vertexDataFields).1

/-- `size_of::<VertexData>()` under `repr(C)`. -/
def vertexDataSize : ℕ := (reprCLayout vertexDataFields).2

/-- The vertex-attribute byte offsets declared in the render pipeline
(`renderer.rs`): `0`, `size_of::<[f32; 3]>()`, `size_of::<[f32; 3 + 3]>()`,
`size_of::<[f32; 3 + 3 + 2]>()`. -/
def vertexAttributeOffsets : List ℕ := [0, 4 * 3, 4 * (3 + 3), 4 * (3 + 3 + 2)]

/-- The pipeline's vertex-buffer `array_stride = size_of::<VertexData>()`. -/
def vertexBufferStride : ℕ := vertexDataSize

/-! ## Machine-integer casts -/

/-- The Rust `as u32` cast on an unsigned value: truncation modulo `2 ^ 32`. -/
def u32cast (n : ℕ) : ℕ := n % 2 ^ 32

/-- `NonZero::<u32>::new`: `none` on zero, `some n` otherwise
(`Renderer::new` calls `.unwrap()` on this, panicking on `none`). -/
def nonZeroNew (n : ℕ) : Option ℕ := if n = 0 then none else some n

/-! ## List helpers

`chunksExact n` models Rust's slice `chunks_exact(n)`: the consecutive
complete chunks of length `n`, the incomplete remainder dropped.
`zip3` models `itertools::izip!` on three iterators: lockstep zipping that
stops at the shortest input. -/

/-- The complete length-`n` chunks of a list (Rust `chunks_exact`). -/
def chunksExact {α : Type _} (n : ℕ) (l : List α) : List (List α) :=
  (List.range (l.length / n)).map fun k => (l.drop (n * k)).take n

/-- Lockstep zip of three lists, stopping at the shortest
(`itertools::izip!`). -/
def zip3 {α β γ : Type _} : List α → List β → List γ → List (α × β × γ)
  | a :: as, b :: bs, c :: cs => (a, b, c) :: zip3 as bs cs
  | _, _, _ => []

/-! ## Insertion-ordered map (`indexmap::IndexMap`)

`Scene`'s texture map is an `IndexMap<String, RgbaImage>`.  We model it as a
list of entries in iteration order.  Per the `IndexMap` documentation,
`insert` on a present key overwrites the value, keeping the key's position;
on an absent key it appends at the end. -/

structure IndexMapL (K V : Type _) where
  entries : List (K × V)

def IndexMapL.empty {K V : Type _} : IndexMapL K V := ⟨[]⟩

/-- The keys in iteration order. -/
def IndexMapL.keys {K V : Type _} (m : IndexMapL K V) : List K :=
  m.entries.map Prod.fst

/-- The values in iteration order (`IndexMap::values`). -/
def IndexMapL.values {K V : Type _} (m : IndexMapL K V) : List V :=
  m.entries.map Prod.snd

/-- `IndexMap::insert`: overwrite in place when the key is present, append
otherwise. -/
def IndexMapL.insert {K V : Type _} [DecidableEq K] (m : IndexMapL K V) (k : K) (v : V) :
    IndexMapL K V :=
  if k ∈ m.keys then ⟨m.entries.map fun p => if p.1 = k then (k, v) else p⟩
  else ⟨m.entries ++ [(k, v)]⟩

/-- `IndexMap::get`: the value stored at the first (only) entry for `k`. -/
def IndexMapL.lookup {K V : Type _} [DecidableEq K] (m : IndexMapL K V) (k : K) : Option V :=
  (m.entries.find? fun p => p.1 = k).map Prod.snd

/-! ## Data model (`models.rs`, `winit_app.rs`) -/

/-- `tobj::Material`: only the fields the program reads. -/
structure Material where
  name : String
  diffuse_texture : Option String

/-- `tobj::Mesh`: flat position/normal/UV arrays and the triangle index
array. -/
structure Mesh where
  positions : List ℝ
  normals : List ℝ
  texcoords : List ℝ
  indices : List ℕ

instance : Inhabited Mesh := ⟨⟨[], [], [], []⟩⟩

/-- A 3-component `f32` vector (`nalgebra::Vector3` / `Point3`). -/
structure Vec3 where
  x : ℝ
  y : ℝ
  z : ℝ

abbrev Mat4 : Type := Matrix (Fin 4) (Fin 4) ℝ

noncomputable section

/-- Homogeneous translation matrix (`Matrix4::new_translation`). -/
def translationMatrix (t : Vec3) : Mat4 :=
  !![1, 0, 0, t.x; 0, 1, 0, t.y; 0, 0, 1, t.z; 0, 0, 0, 1]

/-- Homogeneous non-uniform scaling matrix. -/
def scaleMatrix (s : Vec3) : Mat4 :=
  !![s.x, 0, 0, 0; 0, s.y, 0, 0; 0, 0, s.z, 0; 0, 0, 0, 1]

/-- `Matrix4::new_rotation(v)`: the homogeneous rotation built from the
scaled-axis (axis-angle) vector `v` — identity when `v = 0`, otherwise the
Rodrigues rotation by angle `‖v‖` about axis `v / ‖v‖`. -/
def newRotation (v : Vec3) : Mat4 :=
  if v.x = 0 ∧ v.y = 0 ∧ v.z = 0 then 1
  else
    let angle := Real.sqrt (v.x ^ 2 + v.y ^ 2 + v.z ^ 2)
    let ax := v.x / angle
    let ay := v.y / angle
    let az := v.z / angle
    let c := Real.cos angle
    let s := Real.sin angle
    !![c + ax ^ 2 * (1 - c), ax * ay * (1 - c) - az * s, ax * az * (1 - c) + ay * s, 0;
       ay * ax * (1 - c) + az * s, c + ay ^ 2 * (1 - c), ay * az * (1 - c) - ax * s, 0;
       az * ax * (1 - c) - ay * s, az * ay * (1 - c) + ax * s, c + az ^ 2 * (1 - c), 0;
       0, 0, 0, 1]

/-- `Matrix4::append_nonuniform_scaling(scaling)`: multiplies each of the
first three rows by the corresponding scaling component ("`self` followed by
a non-uniform scaling"). -/
def appendNonuniformScaling (m : Mat4) (s : Vec3) : Mat4 :=
  Matrix.of fun i j =>
    (if i = 0 then s.x else if i = 1 then s.y else if i = 2 then s.z else 1) * m i j

/-- `Matrix4::prepend_translation(shift)`: adds `M₃ₓ₃ · shift` (and, for the
bottom row, `row₃ · shift`) into the last column — "a translation followed by
`self`". -/
def prependTranslation (m : Mat4) (t : Vec3) : Mat4 :=
  Matrix.of fun i j =>
    if j = 3 then m i 0 * t.x + m i 1 * t.y + m i 2 * t.z + m i 3 else m i j

/-- `Matrix4::transform_point`: homogeneous transform with perspective
division (skipped when the resulting `w` is zero). -/
def transformPoint (m : Mat4) (p : Vec3) : Vec3 :=
  let rx := m 0 0 * p.x + m 0 1 * p.y + m 0 2 * p.z + m 0 3
  let ry := m 1 0 * p.x + m 1 1 * p.y + m 1 2 * p.z + m 1 3
  let rz := m 2 0 * p.x + m 2 1 * p.y + m 2 2 * p.z + m 2 3
  let n := m 3 0 * p.x + m 3 1 * p.y + m 3 2 * p.z + m 3 3
  if n ≠ 0 then ⟨rx / n, ry / n, rz / n⟩ else ⟨rx, ry, rz⟩

def dot3 (a b : Vec3) : ℝ := a.x * b.x + a.y * b.y + a.z * b.z

def cross3 (a b : Vec3) : Vec3 :=
  ⟨a.y * b.z - a.z * b.y, a.z * b.x - a.x * b.z, a.x * b.y - a.y * b.x⟩

def normalize3 (v : Vec3) : Vec3 :=
  let n := Real.sqrt (v.x ^ 2 + v.y ^ 2 + v.z ^ 2)
  ⟨v.x / n, v.y / n, v.z / n⟩

/-- `Matrix4::look_at_rh(eye, target, up)`: right-handed look-at view
matrix. -/
def lookAtRh (eye target up : Vec3) : Mat4 :=
  let zaxis := normalize3 ⟨eye.x - target.x, eye.y - target.y, eye.z - target.z⟩
  let xaxis := normalize3 (cross3 up zaxis)
  let yaxis := normalize3 (cross3 zaxis xaxis)
  !![xaxis.x, xaxis.y, xaxis.z, -dot3 xaxis eye;
     yaxis.x, yaxis.y, yaxis.z, -dot3 yaxis eye;
     zaxis.x, zaxis.y, zaxis.z, -dot3 zaxis eye;
     0, 0, 0, 1]

/-- `Matrix4::new_perspective(aspect, fovy, znear, zfar)` (right-handed,
OpenGL depth convention). -/
def newPerspective (aspect fovy znear zfar : ℝ) : Mat4 :=
  let t := Real.tan (fovy / 2)
  !![1 / (aspect * t), 0, 0, 0;
     0, 1 / t, 0, 0;
     0, 0, -(zfar + znear) / (zfar - znear), -(2 * zfar * znear) / (zfar - znear);
     0, 0, -1, 0]

/-- `nalgebra::as_slice` order of a `Matrix4`: column-major. -/
def mat4ColMajor (m : Mat4) : List ℝ :=
  [m 0 0, m 1 0, m 2 0, m 3 0,
   m 0 1, m 1 1, m 2 1, m 3 1,
   m 0 2, m 1 2, m 2 2, m 3 2,
   m 0 3, m 1 3, m 2 3, m 3 3]

/-- `nalgebra::clamp(val, min, max)`:
`if val > max { max } else if val < min { min } else { val }`. -/
def clampR (val lo hi : ℝ) : ℝ :=
  if hi < val then hi else if val < lo then lo else val

/-- The pitch clamp bound `PI * 89.0 / 180.0` of `Camera::rotate`. -/
def pitchBound : ℝ := Real.pi * 89 / 180

/-- `models.rs` `Camera` (the source field `aspect_ratio` is called `aspect`
here). -/
structure Camera where
  aspect : ℝ
  fovy : ℝ
  near_bound : ℝ
  far_bound : ℝ
  position : Vec3
  rotation : Vec3
  look_at : Vec3

/-- `Camera::new(aspect_ratio)`. -/
def Camera.new (aspect : ℝ) : Camera :=
  { aspect := aspect
    fovy := 1.4
    near_bound := 0.1
    far_bound := 1000
    position := ⟨0, 0, 2⟩
    rotation := ⟨0, 0, 0⟩
    look_at := ⟨0, 0, 0⟩ }

/-- `Camera::rotate(pitch, yaw)`: `new_rotation = rotation + (pitch, yaw, 0)`;
`x` is clamped to `±PI*89/180`, `y` is taken as is, `z` is left unchanged. -/
def Camera.rotate (c : Camera) (pitch yaw : ℝ) : Camera :=
  let nr : Vec3 := ⟨c.rotation.x + pitch, c.rotation.y + yaw, c.rotation.z + 0⟩
  { c with rotation := ⟨clampR nr.x (-pitchBound) pitchBound, nr.y, c.rotation.z⟩ }

/-- `Camera::tm()`: rotate the eye by pitch then yaw, build the right-handed
look-at view matrix toward `look_at` with up `(0,1,0)`, and multiply the
perspective matrix by it. -/
def Camera.tm (c : Camera) : Mat4 :=
  let tm_x := newRotation ⟨c.rotation.x, 0, 0⟩
  let tm_y := newRotation ⟨0, c.rotation.y, 0⟩
  let position := transformPoint (tm_y * tm_x) c.position
  let transform_matrix := lookAtRh position c.look_at ⟨0, 1, 0⟩
  let perspective_matrix := newPerspective c.aspect c.fovy c.near_bound c.far_bound
  perspective_matrix * transform_matrix

/-- Folding a sequence of `Camera.rotate` calls (input events) over a
camera. -/
def applyRotations (c : Camera) (ds : List (ℝ × ℝ)) : Camera :=
  ds.foldl (fun c d => c.rotate d.1 d.2) c

/-- `renderer.rs` `VertexData` (runtime contents; the byte layout is modelled
separately by `vertexDataOffsets`/`vertexDataSize`). -/
structure VertexData where
  position : List ℝ
  normal : List ℝ
  uv : List ℝ
  model_idx : ℕ

/-- `models.rs` `Model`. -/
structure Model where
  meshes : List Mesh
  materials : List Material
  translation : Vec3
  rotation : Vec3
  scaling : Vec3

instance : Inhabited Model := ⟨⟨[], [], ⟨0, 0, 0⟩, ⟨0, 0, 0⟩, ⟨0, 0, 0⟩⟩⟩

/-- `Model::tm()`:
`Matrix4::new_rotation(rotation).append_nonuniform_scaling(&scaling).prepend_translation(&translation)`. -/
def Model.tm (m : Model) : Mat4 :=
  prependTranslation (appendNonuniformScaling (newRotation m.rotation) m.scaling) m.translation

/-- The per-mesh body of `Model::vertex_data`: chunk the flat arrays (a fresh
zero array of the positions' length substituted for empty normals), zip them
in lockstep, flip the UV `v` to `1 - v`, and tag with the model index cast
`as u32`. -/
def Mesh.vertexRecords (mesh : Mesh) (model_idx : ℕ) : List VertexData :=
  let positions := chunksExact 3 mesh.positions
  let r : List ℝ := List.replicate mesh.positions.length 0
  let normals := if mesh.normals.isEmpty then chunksExact 3 r else chunksExact 3 mesh.normals
  let uvs := chunksExact 2 mesh.texcoords
  (zip3 positions normals uvs).map fun t =>
    { position := t.1
      normal := t.2.1
      uv := [t.2.2.getD 0 0, 1 - t.2.2.getD 1 0]
      model_idx := u32cast model_idx }

/-- `Model::vertex_data(model_idx)`: one record sequence per mesh. -/
def Model.vertex_data (m : Model) (model_idx : ℕ) : List (List VertexData) :=
  m.meshes.map fun mesh => mesh.vertexRecords model_idx

/-- `winit_app.rs` `Scene`. -/
structure Scene where
  models : List Model
  textures_map : IndexMapL String String
  camera : Camera

/-- The texture-map construction loop of `Scene::new`: for every material
with a diffuse texture, decode the image at `./models/{name}` (the decode
step `load` is kept abstract: an image is represented by an opaque `String`)
and insert it keyed by the material name. -/
def buildTexturesMap (models : List Model) (load : String → String) :
    IndexMapL String String :=
  models.foldl
    (fun acc model =>
      model.materials.foldl
        (fun acc2 material =>
          match material.diffuse_texture with
          | some dt_name => acc2.insert material.name (load ("./models/" ++ dt_name))
          | none => acc2)
        acc)
    IndexMapL.empty

/-! ## Renderer (`renderer.rs`) -/

/-- `wgpu::SurfaceError`. -/
inductive SurfaceError
  | timeout
  | outdated
  | lost
  | outOfMemory
  | other

/-- One entry of the bind group layout: its binding slot and its `count`
(`None` for non-array bindings). -/
structure BindGroupLayoutEntry where
  binding : ℕ
  count : Option ℕ

/-- The persistent renderer state: the bind group layout (whose binding 1 is
the texture array sized at construction) and the optional presentation
surface. -/
structure Renderer where
  layoutEntries : List BindGroupLayoutEntry
  surface : Option (ℕ × ℕ)

/-- `Renderer::new(device, queue, textures_count)`: the texture-array element
count is `NonZero::new(textures_count as u32).unwrap()` — `none` models the
panic of `.unwrap()`. -/
def Renderer.new (texturesCount : ℕ) : Option Renderer :=
  (nonZeroNew (u32cast texturesCount)).map fun c =>
    { layoutEntries := [⟨0, none⟩, ⟨1, some c⟩, ⟨2, none⟩, ⟨3, none⟩]
      surface := none }

/-- `Renderer::add_surface`. -/
def Renderer.addSurface (r : Renderer) (size : ℕ × ℕ) : Renderer :=
  { r with surface := some size }

/-- The transient per-frame resources built by `Renderer::create_resources`.
A GPU buffer is represented by its contents. -/
structure Resources where
  vertexBuffers : List (List (List VertexData))
  indexBuffers : List (List (List ℕ))
  tmsFlat : List ℝ
  textureViews : List String
  uniform : List ℝ
  depthSize : ℕ × ℕ

/-- `Renderer::create_resources(surface_size, camera, textures_map, models)`:
per model (enumerated), one vertex buffer per mesh from its vertex data and
one index buffer per mesh from its indices; the models' transform matrices
concatenated column-major; one texture view per map entry in map order; the
camera matrix; a depth texture sized to the surface. -/
def createResources (surfaceSize : ℕ × ℕ) (camera : Camera)
    (texturesMap : IndexMapL String String) (models : List Model) : Resources :=
  { vertexBuffers := models.enum.map fun p => p.2.vertex_data p.1
    indexBuffers := models.map fun model => model.meshes.map fun mesh => mesh.indices
    tmsFlat := models.foldl (fun acc model => acc ++ mat4ColMajor model.tm) []
    textureViews := texturesMap.values
    uniform := mat4ColMajor camera.tm
    depthSize := surfaceSize }

/-- One `draw_indexed` call: the bound vertex/index buffer contents, the
index range end (`indices.len() as u32`, starting from 0), and the instance
count (`0..1`). -/
structure DrawCmd where
  vb : List VertexData
  ib : List ℕ
  indexCount : ℕ
  instanceCount : ℕ

/-- The draw calls issued by the render pass of `Renderer::render`:
`for model_idx in 0..models.len()`, `for mesh_idx in 0..meshes.len()`, bind
`vertex_buffers[model_idx][mesh_idx]` and `index_buffers[model_idx][mesh_idx]`
and issue `draw_indexed(0..indices.len() as u32, 0, 0..1)`. -/
def renderDraws (scene : Scene) (surfaceSize : ℕ × ℕ) : List DrawCmd :=
  let res := createResources surfaceSize scene.camera scene.textures_map scene.models
  (List.range scene.models.length).flatMap fun mi =>
    (List.range ((scene.models.getD mi default).meshes.length)).map fun ji =>
      { vb := (res.vertexBuffers.getD mi []).getD ji []
        ib := (res.indexBuffers.getD mi []).getD ji []
        indexCount := u32cast ((scene.models.getD mi default).meshes.getD ji default).indices.length
        instanceCount := 1 }

/-- The draw list described by the specification: iterate models in `Scene`
order and meshes in mesh order, and for each mesh issue one indexed draw that
binds that mesh's own vertex and index buffer, covers its index count (cast
`as u32`), with instance count 1. -/
def drawsPerMeshInOrder (scene : Scene) : List DrawCmd :=
  (List.range scene.models.length).flatMap fun mi =>
    let model := scene.models.getD mi default
    (List.range model.meshes.length).map fun ji =>
      let mesh := model.meshes.getD ji default
      { vb := mesh.vertexRecords mi
        ib := mesh.indices
        indexCount := u32cast mesh.indices.length
        instanceCount := 1 }

/-- Observable effects of one `Renderer::render` call. -/
structure FrameTrace where
  acquireAttempts : ℕ
  submittedDraws : List DrawCmd
  presented : Bool
  reconfigured : Bool

/-- `Renderer::render(surface_size, scene)`: `Ok(())` immediately when no
surface is attached; otherwise build resources, acquire the next surface
image once (`get_current_texture()?` — the `acquireResults` list supplies the
outcomes the surface would produce, and exactly one is consumed), propagate
an acquisition error without retry or surface reconfiguration, else submit
the draw pass and present. -/
def Renderer.render (r : Renderer) (surfaceSize : ℕ × ℕ) (scene : Scene)
    (acquireResults : List (Except SurfaceError Unit)) :
    Except SurfaceError Unit × FrameTrace :=
  match r.surface with
  | none => (Except.ok (), ⟨0, [], false, false⟩)
  | some _ =>
    match acquireResults.headD (Except.error SurfaceError.lost) with
    | Except.error e => (Except.error e, ⟨1, [], false, false⟩)
    | Except.ok _ => (Except.ok (), ⟨1, renderDraws scene surfaceSize, true, false⟩)

/-! ## Concrete example values used by witnesses and counterexamples -/

/-- A one-vertex mesh with empty normals. -/
def meshEx : Mesh := ⟨[1, 2, 3], [], [1 / 2, 1 / 4], [0, 0, 0]⟩

/-- A two-vertex mesh with normals present. -/
def meshEx2 : Mesh := ⟨[1, 0, 0, 0, 1, 0], [0, 0, 1, 0, 0, 1], [0, 0, 1, 1], [0, 1, 1]⟩

def modelEx : Model := ⟨[meshEx], [], ⟨0, 0, 0⟩, ⟨0, 0, 0⟩, ⟨1, 1, 1⟩⟩

def modelEx2 : Model := ⟨[meshEx, meshEx2], [], ⟨0, 0, 0⟩, ⟨0, 0, 0⟩, ⟨1, 1, 1⟩⟩

/-- The `Model` of the spec's worked example: `T = (0,0,5)`, `R = 0`,
`S = (2,1,1)`. -/
def modelC1Example : Model := ⟨[], [], ⟨0, 0, 5⟩, ⟨0, 0, 0⟩, ⟨2, 1, 1⟩⟩

/-- A model whose translation and scaling interact:
`T = (1,0,0)`, `R = 0`, `S = (2,1,1)`. -/
def modelC1Counter : Model := ⟨[], [], ⟨1, 0, 0⟩, ⟨0, 0, 0⟩, ⟨2, 1, 1⟩⟩

/-- A small scene: one single-mesh model and one two-mesh model. -/
def sceneSmall : Scene := ⟨[modelEx, modelEx2], IndexMapL.empty, Camera.new 1⟩

/-- An index array with `2 ^ 32` entries. -/
def hugeIndices : List ℕ := List.replicate (2 ^ 32) 0

/-- A scene containing one mesh with `2 ^ 32` indices. -/
def sceneHuge : Scene :=
  ⟨[⟨[⟨[], [], [], hugeIndices⟩], [], ⟨0, 0, 0⟩, ⟨0, 0, 0⟩, ⟨1, 1, 1⟩⟩],
    IndexMapL.empty, Camera.new 1⟩

/-- A mesh with vertices but no UV coordinates. -/
def meshNoUV : Mesh := ⟨[1, 2, 3], [0, 0, 1], [], []⟩

def modelNoUV : Model := ⟨[meshNoUV], [], ⟨0, 0, 0⟩, ⟨0, 0, 0⟩, ⟨1, 1, 1⟩⟩

/-- The normal array actually zipped: the zero substitute when the mesh has
no normals, the mesh's own normals otherwise. -/
def normalSource (mesh : Mesh) : List ℝ :=
  if mesh.normals.isEmpty then List.replicate mesh.positions.length 0 else mesh.normals

/-- A renderer with no presentation surface attached. -/
def rendererNoSurface : Renderer := ⟨[], none⟩

/-- A renderer with a surface attached. -/
def rendererWithSurface : Renderer := ⟨[], some (640, 480)⟩

/-- A concrete two-entry map. -/
def mapEx : IndexMapL String String := ⟨[("a", "1"), ("b", "2")]⟩

end

/-! ## Theorems -/

@[simp] theorem length_chunksExact {α : Type _} (n : ℕ) (l : List α) :
    (chunksExact n l).length = l.length / n := by
  simp [chunksExact]

theorem get_chunksExact {α : Type _} (n : ℕ) (l : List α) (k : ℕ)
    (h : k < (chunksExact n l).length) :
    (chunksExact n l).get ⟨k, h⟩ = (l.drop (n * k)).take n := by
  simp [chunksExact]

@[simp] theorem zip3_nil_left {α β γ : Type _} (bs : List β) (cs : List γ) :
    zip3 ([] : List α) bs cs = [] := by
  cases bs <;> cases cs <;> rfl

theorem length_zip3 {α β γ : Type _} :
    ∀ (as : List α) (bs : List β) (cs : List γ),
      (zip3 as bs cs).length = min (min as.length bs.length) cs.length
  | [], bs, cs => by simp
  | a :: as, [], cs => by simp [zip3]
  | a :: as, b :: bs, [] => by simp [zip3]
  | a :: as, b :: bs, c :: cs => by
    simp [zip3, length_zip3 as bs cs]
    omega

theorem get_zip3 {α β γ : Type _} :
    ∀ (as : List α) (bs : List β) (cs : List γ) (k : ℕ)
      (h : k < (zip3 as bs cs).length)
      (ha : k < as.length) (hb : k < bs.length) (hc : k < cs.length),
      (zip3 as bs cs).get ⟨k, h⟩ = (as.get ⟨k, ha⟩, bs.get ⟨k, hb⟩, cs.get ⟨k, hc⟩)
  | a :: as, b :: bs, c :: cs, 0, _, _, _, _ => rfl
  | a :: as, b :: bs, c :: cs, k + 1, h, ha, hb, hc => by
    simpa [zip3] using
      get_zip3 as bs cs k (by simpa [zip3] using h)
        (by simpa using ha) (by simpa using hb) (by simpa using hc)

theorem bound_of_lt_div {a k n : ℕ} (hn : 0 < n) (h : k < a / n) :
    n * k + (n - 1) < a := by
  have h1 : (k + 1) * n ≤ a / n * n := Nat.mul_le_mul_right n h
  have h2 : a / n * n ≤ a := Nat.div_mul_le_self a n
  have h3 : n * k + n ≤ a := by
    calc n * k + n = (k + 1) * n := by ring
    _ ≤ a / n * n := h1
    _ ≤ a := h2
  generalize n * k = p at h3 ⊢
  omega

theorem drop_take_two {α : Type _} (l : List α) (m : ℕ) (h : m + 1 < l.length) :
    (l.drop m).take 2 = [l.get ⟨m, by omega⟩, l.get ⟨m + 1, h⟩] := by
  rw [List.drop_eq_getElem_cons (by omega), List.drop_eq_getElem_cons (by omega)]
  rfl

theorem drop_take_three {α : Type _} (l : List α) (m : ℕ) (h : m + 2 < l.length) :
    (l.drop m).take 3 =
      [l.get ⟨m, by omega⟩, l.get ⟨m + 1, by omega⟩, l.get ⟨m + 2, h⟩] := by
  rw [List.drop_eq_getElem_cons (by omega), List.drop_eq_getElem_cons (by omega),
    List.drop_eq_getElem_cons (by omega)]
  rfl

/-! ### C5: VertexData byte layout -/

/-- Claim C5: under `repr(C)` the `VertexData` fields position/normal/uv/
model_idx sit at byte offsets 0, 12, 24, 32, the record is exactly 36 bytes
with no padding (36 = sum of the field sizes), and the render pipeline's
declared vertex-attribute offsets and buffer stride match this layout. -/
theorem vertex_layout_spec :
    vertexDataOffsets = [0, 12, 24, 32] ∧
    vertexDataSize = 36 ∧
    vertexDataSize = (vertexDataFields.map Prod.fst).sum ∧
    vertexAttributeOffsets = vertexDataOffsets ∧
    vertexBufferStride = vertexDataSize := by
  decide

/-! ### C10: Renderer construction and the texture-array count -/

/-- Claim C10 is false as stated: `textures_count` is cast `as u32` before
`NonZero::new(..).unwrap()`, so construction panics not only at 0 — it also
panics at `2 ^ 32` even though `1 ≤ 2 ^ 32`. -/
theorem renderer_new_counterexample :
    1 ≤ 2 ^ 32 ∧ Renderer.new (2 ^ 32) = none := by
  refine ⟨by norm_num, ?_⟩
  simp [Renderer.new, u32cast, nonZeroNew]

/-- Claim C10 (amended): `Renderer::new` panics exactly when
`texturesCount % 2 ^ 32 = 0` (in particular at 0); whenever the residue is
non-zero construction succeeds and the bind-group layout's binding 1 count is
`texturesCount % 2 ^ 32` — equal to `texturesCount` whenever it is below
`2 ^ 32`. -/
theorem renderer_new_spec (n : ℕ) :
    (Renderer.new n = none ↔ n % 2 ^ 32 = 0) ∧
    (n % 2 ^ 32 ≠ 0 →
      ∃ r, Renderer.new n = some r ∧
        (r.layoutEntries.getD 1 ⟨0, none⟩).binding = 1 ∧
        (r.layoutEntries.getD 1 ⟨0, none⟩).count = some (n % 2 ^ 32)) ∧
    (1 ≤ n → n < 2 ^ 32 →
      ∃ r, Renderer.new n = some r ∧
        (r.layoutEntries.getD 1 ⟨0, none⟩).count = some n) := by
  refine ⟨⟨fun h => ?_, fun h => ?_⟩, fun h => ?_, fun h1 h2 => ?_⟩
  · by_contra hne
    simp [Renderer.new, u32cast, nonZeroNew] at h
    omega
  · simp [Renderer.new, u32cast, nonZeroNew]
    omega
  · refine ⟨⟨[⟨0, none⟩, ⟨1, some (n % 2 ^ 32)⟩, ⟨2, none⟩, ⟨3, none⟩], none⟩, ?_, rfl, rfl⟩
    have h32 : n % 4294967296 ≠ 0 := by omega
    simp [Renderer.new, u32cast, nonZeroNew, h32]
  · have hmod : n % 2 ^ 32 = n := Nat.mod_eq_of_lt h2
    refine ⟨⟨[⟨0, none⟩, ⟨1, some n⟩, ⟨2, none⟩, ⟨3, none⟩], none⟩, ?_, rfl⟩
    have h32 : n % 4294967296 ≠ 0 := by omega
    have hmod32 : n % 4294967296 = n := by omega
    simp [Renderer.new, u32cast, nonZeroNew, h32, hmod32]
    omega

/-- Witness for `renderer_new_spec` at `texturesCount = 7`. -/
theorem renderer_new_spec_witness :
    (7 % 2 ^ 32 ≠ 0) ∧ (1 ≤ 7 ∧ 7 < 2 ^ 32) ∧
    ∃ r, Renderer.new 7 = some r ∧
      (r.layoutEntries.getD 1 ⟨0, none⟩).count = some 7 :=
  ⟨by norm_num, ⟨by norm_num, by norm_num⟩,
    (renderer_new_spec 7).2.2 (by norm_num) (by norm_num)⟩

/-! ### C8: the Scene texture map -/

theorem insert_keys_of_mem {K V : Type _} [DecidableEq K]
    (mp : IndexMapL K V) (k : K) (v : V) (h : k ∈ mp.keys) :
    (mp.insert k v).keys = mp.keys := by
  unfold IndexMapL.insert
  rw [if_pos h]
  unfold IndexMapL.keys
  rw [List.map_map]
  apply List.map_congr_left
  intro p _
  by_cases hp : p.1 = k
  · simp [hp]
  · simp [hp]

theorem insert_keys_of_not_mem {K V : Type _} [DecidableEq K]
    (mp : IndexMapL K V) (k : K) (v : V) (h : k ∉ mp.keys) :
    (mp.insert k v).keys = mp.keys ++ [k] := by
  unfold IndexMapL.insert
  rw [if_neg h]
  simp [IndexMapL.keys]

theorem find_subst {K V : Type _} [DecidableEq K] (k : K) (v : V) :
    ∀ l : List (K × V), k ∈ l.map Prod.fst →
      ((l.map fun p => if p.1 = k then (k, v) else p).find? fun p => p.1 = k) = some (k, v)
  | [], h => by simp at h
  | p :: t, h => by
    by_cases hp : p.1 = k
    · simp [hp, List.find?]
    · have ht : k ∈ t.map Prod.fst := by
        rcases List.mem_map.mp h with ⟨q, hq, hqk⟩
        rcases List.mem_cons.mp hq with hq1 | hq2
        · exact absurd (hq1 ▸ hqk) hp
        · exact List.mem_map.mpr ⟨q, hq2, hqk⟩
      simpa [List.find?, hp] using find_subst k v t ht

theorem insert_lookup {K V : Type _} [DecidableEq K]
    (mp : IndexMapL K V) (k : K) (v : V) :
    (mp.insert k v).lookup k = some v := by
  by_cases h : k ∈ mp.keys
  · rw [show mp.insert k v = ⟨mp.entries.map fun p => if p.1 = k then (k, v) else p⟩ from by
      unfold IndexMapL.insert
      rw [if_pos h]]
    unfold IndexMapL.lookup
    rw [find_subst k v mp.entries h]
    rfl
  · rw [show mp.insert k v = ⟨mp.entries ++ [(k, v)]⟩ from by
      unfold IndexMapL.insert
      rw [if_neg h]]
    unfold IndexMapL.lookup
    have hnone : (mp.entries.find? fun p => p.1 = k) = none := by
      apply List.find?_eq_none.mpr
      intro p hp
      simp only [decide_eq_true_eq]
      intro hpk
      exact h (List.mem_map.mpr ⟨p, hp, hpk⟩)
    simp [List.find?_append, hnone, List.find?]

theorem insert_keys_nodup {K V : Type _} [DecidableEq K]
    (mp : IndexMapL K V) (k : K) (v : V) (h : mp.keys.Nodup) :
    (mp.insert k v).keys.Nodup := by
  by_cases hm : k ∈ mp.keys
  · rw [insert_keys_of_mem mp k v hm]
    exact h
  · rw [insert_keys_of_not_mem mp k v hm]
    simp [List.nodup_append, h, hm]

theorem fold_step_nodup {β : Type _}
    (step : IndexMapL String String → β → IndexMapL String String)
    (hstep : ∀ acc b, acc.keys.Nodup → (step acc b).keys.Nodup) :
    ∀ (l : List β) (acc : IndexMapL String String),
      acc.keys.Nodup → (l.foldl step acc).keys.Nodup
  | [], _, h => h
  | b :: t, acc, h => fold_step_nodup step hstep t (step acc b) (hstep acc b h)

/-- Claim C8: the Scene texture map built at construction has no duplicate
keys; iteration is a pure read of the stored entry list, equal to
first-insertion order: inserting a key already present overwrites its value
without changing the key list (hence the key's position), and inserting a
fresh key appends it at the end. -/
theorem textures_map_spec (models : List Model) (load : String → String) :
    (buildTexturesMap models load).keys.Nodup ∧
    (∀ (mp : IndexMapL String String) (k v : String), k ∈ mp.keys →
      (mp.insert k v).keys = mp.keys ∧ (mp.insert k v).lookup k = some v) ∧
    (∀ (mp : IndexMapL String String) (k v : String), k ∉ mp.keys →
      (mp.insert k v).keys = mp.keys ++ [k] ∧ (mp.insert k v).lookup k = some v) := by
  refine ⟨?_, fun mp k v h => ⟨insert_keys_of_mem mp k v h, insert_lookup mp k v⟩,
    fun mp k v h => ⟨insert_keys_of_not_mem mp k v h, insert_lookup mp k v⟩⟩
  unfold buildTexturesMap
  apply fold_step_nodup
  · intro acc model hacc
    apply fold_step_nodup
    · intro acc2 material hacc2
      cases hdt : material.diffuse_texture with
      | none => simpa [hdt] using hacc2
      | some dt => simpa [hdt] using insert_keys_nodup acc2 material.name _ hacc2
    · exact hacc
  · simp [IndexMapL.empty, IndexMapL.keys]

/-- Witness for `textures_map_spec`: overwrite of the present key `a` keeps
the key order, insertion of the fresh key `c` appends. -/
theorem textures_map_spec_witness :
    "a" ∈ mapEx.keys ∧
    ((mapEx.insert "a" "3").keys = mapEx.keys ∧ (mapEx.insert "a" "3").lookup "a" = some "3") ∧
    "c" ∉ mapEx.keys ∧
    ((mapEx.insert "c" "4").keys = mapEx.keys ++ ["c"] ∧
      (mapEx.insert "c" "4").lookup "c" = some "4") :=
  ⟨by decide, (textures_map_spec [] id).2.1 mapEx "a" "3" (by decide),
    by decide, (textures_map_spec [] id).2.2 mapEx "c" "4" (by decide)⟩

/-! ### C1: Model transform-matrix composition -/

theorem newRotation_zero : newRotation ⟨0, 0, 0⟩ = 1 := by
  simp [newRotation]

/-- `append_nonuniform_scaling` is left multiplication by the scaling
matrix. -/
theorem appendNonuniformScaling_eq (m : Mat4) (s : Vec3) :
    appendNonuniformScaling m s = scaleMatrix s * m := by
  ext i j
  rw [Matrix.mul_apply, Fin.sum_univ_four]
  fin_cases i <;>
    simp [appendNonuniformScaling, scaleMatrix, Matrix.vecHead, Matrix.vecTail, Fin.isValue]

/-- `prepend_translation` is right multiplication by the translation
matrix. -/
theorem prependTranslation_eq (m : Mat4) (t : Vec3) :
    prependTranslation m t = m * translationMatrix t := by
  ext i j
  rw [Matrix.mul_apply, Fin.sum_univ_four]
  fin_cases j <;>
    simp [prependTranslation, translationMatrix, Matrix.vecHead, Matrix.vecTail, Fin.isValue]

/-- Claim C1 is false as stated: with `T = (1,0,0)`, `R = 0`, `S = (2,1,1)`
the matrix `Model::tm` returns differs from
`Translate(T) · Rotate(R) · Scale(S)` (their `(0,3)` entries are 2 and 1). -/
theorem model_tm_counterexample :
    modelC1Counter.tm ≠
      translationMatrix modelC1Counter.translation * newRotation modelC1Counter.rotation *
        scaleMatrix modelC1Counter.scaling := by
  intro h
  have h03 := congrFun (congrFun h 0) 3
  rw [show modelC1Counter.tm =
      prependTranslation
        (appendNonuniformScaling (newRotation modelC1Counter.rotation) modelC1Counter.scaling)
        modelC1Counter.translation from rfl] at h03
  rw [show modelC1Counter.rotation = ⟨0, 0, 0⟩ from rfl, newRotation_zero] at h03
  rw [show modelC1Counter.translation = ⟨1, 0, 0⟩ from rfl,
    show modelC1Counter.scaling = ⟨2, 1, 1⟩ from rfl] at h03
  rw [appendNonuniformScaling_eq, prependTranslation_eq] at h03
  simp [Matrix.mul_apply, Fin.sum_univ_four, scaleMatrix, translationMatrix,
    Matrix.vecHead, Matrix.vecTail, Matrix.one_apply] at h03

/-- Claim C1 (amended): `Model::tm` composes the transform in the opposite
order — `Scale(S) · Rotate(R) · Translate(T)`, i.e. the translation is
applied first in local coordinates and the non-uniform scale last
(`append_nonuniform_scaling` left-multiplies, `prepend_translation`
right-multiplies).  The spec's worked example is unaffected: transforming
local point `(1,0,0)` with `T = (0,0,5)`, `R` identity, `S = (2,1,1)` still
yields `(2,0,5)`, because that choice of `T` and `S` commutes. -/
theorem model_tm_scale_rot_translate :
    (∀ m : Model,
      m.tm =
        scaleMatrix m.scaling * newRotation m.rotation * translationMatrix m.translation) ∧
    transformPoint modelC1Example.tm ⟨1, 0, 0⟩ = ⟨2, 0, 5⟩ := by
  constructor
  · intro m
    rw [Model.tm, appendNonuniformScaling_eq, prependTranslation_eq]
  · rw [show modelC1Example.tm =
        prependTranslation
          (appendNonuniformScaling (newRotation modelC1Example.rotation) modelC1Example.scaling)
          modelC1Example.translation from rfl]
    rw [show modelC1Example.rotation = ⟨0, 0, 0⟩ from rfl, newRotation_zero]
    rw [show modelC1Example.translation = ⟨0, 0, 5⟩ from rfl,
      show modelC1Example.scaling = ⟨2, 1, 1⟩ from rfl]
    rw [appendNonuniformScaling_eq, prependTranslation_eq]
    simp [transformPoint, Matrix.mul_apply, Fin.sum_univ_four, scaleMatrix, translationMatrix,
      Matrix.vecHead, Matrix.vecTail, Matrix.one_apply]

/-! ### C2: Camera.rotate pitch clamping and yaw accumulation -/

theorem pitchBound_nonneg : 0 ≤ pitchBound := by
  unfold pitchBound
  positivity

theorem clampR_mem (x lo hi : ℝ) (h : lo ≤ hi) :
    lo ≤ clampR x lo hi ∧ clampR x lo hi ≤ hi := by
  unfold clampR
  split_ifs with h1 h2 <;> constructor <;> linarith

theorem clampR_of_gt (x lo hi : ℝ) (h : hi < x) : clampR x lo hi = hi := by
  unfold clampR
  rw [if_pos h]

theorem clampR_of_lt (x lo hi : ℝ) (hle : lo ≤ hi) (h : x < lo) : clampR x lo hi = lo := by
  unfold clampR
  rw [if_neg (by linarith), if_pos h]

theorem rotate_pitch_eq (c : Camera) (dp dy : ℝ) :
    (c.rotate dp dy).rotation.x = clampR (c.rotation.x + dp) (-pitchBound) pitchBound := rfl

theorem rotate_yaw_eq (c : Camera) (dp dy : ℝ) :
    (c.rotate dp dy).rotation.y = c.rotation.y + dy := rfl

theorem applyRotations_pitch_mem :
    ∀ (ds : List (ℝ × ℝ)) (c : Camera),
      -pitchBound ≤ c.rotation.x → c.rotation.x ≤ pitchBound →
      -pitchBound ≤ (applyRotations c ds).rotation.x ∧
        (applyRotations c ds).rotation.x ≤ pitchBound
  | [], c, h1, h2 => ⟨h1, h2⟩
  | d :: ds, c, h1, h2 => by
    have hb : -pitchBound ≤ pitchBound := by linarith [pitchBound_nonneg]
    have hc := clampR_mem (c.rotation.x + d.1) (-pitchBound) pitchBound hb
    exact applyRotations_pitch_mem ds (c.rotate d.1 d.2)
      (by rw [rotate_pitch_eq]; exact hc.1) (by rw [rotate_pitch_eq]; exact hc.2)

theorem applyRotations_yaw :
    ∀ (ds : List (ℝ × ℝ)) (c : Camera),
      (applyRotations c ds).rotation.y = c.rotation.y + (ds.map Prod.snd).sum
  | [], c => by simp [applyRotations]
  | d :: ds, c => by
    have ih := applyRotations_yaw ds (c.rotate d.1 d.2)
    rw [show applyRotations c (d :: ds) = applyRotations (c.rotate d.1 d.2) ds from rfl, ih,
      rotate_yaw_eq]
    simp
    ring

/-- Claim C2: starting from `Camera::new`, after any sequence of
`Camera::rotate` calls the stored pitch lies within `±PI*89/180`
(≈ ±1.5533 rad); whenever the current pitch plus the incoming delta would
exceed a bound, the stored pitch becomes exactly that bound, regardless of
magnitude or sign history; the stored yaw is never clamped and equals the
exact sum of all yaw deltas. -/
theorem camera_rotate_clamp_spec (a : ℝ) (ds : List (ℝ × ℝ)) :
    (-pitchBound ≤ (applyRotations (Camera.new a) ds).rotation.x ∧
      (applyRotations (Camera.new a) ds).rotation.x ≤ pitchBound) ∧
    (applyRotations (Camera.new a) ds).rotation.y = (ds.map Prod.snd).sum ∧
    (∀ dp dy : ℝ, pitchBound < (applyRotations (Camera.new a) ds).rotation.x + dp →
      ((applyRotations (Camera.new a) ds).rotate dp dy).rotation.x = pitchBound) ∧
    (∀ dp dy : ℝ, (applyRotations (Camera.new a) ds).rotation.x + dp < -pitchBound →
      ((applyRotations (Camera.new a) ds).rotate dp dy).rotation.x = -pitchBound) := by
  have hb : -pitchBound ≤ pitchBound := by linarith [pitchBound_nonneg]
  refine ⟨?_, ?_, fun dp dy h => ?_, fun dp dy h => ?_⟩
  · exact applyRotations_pitch_mem ds (Camera.new a)
      (by rw [show (Camera.new a).rotation.x = 0 from rfl]; linarith [pitchBound_nonneg])
      (by rw [show (Camera.new a).rotation.x = 0 from rfl]; exact pitchBound_nonneg)
  · rw [applyRotations_yaw ds (Camera.new a), show (Camera.new a).rotation.y = 0 from rfl]
    ring
  · rw [rotate_pitch_eq]
    exact clampR_of_gt _ _ _ h
  · rw [rotate_pitch_eq]
    exact clampR_of_lt _ _ _ hb h

/-- Witness for `camera_rotate_clamp_spec`: a single `rotate(4, 0)` from the
initial camera overshoots the bound and pins the pitch to exactly
`PI*89/180`. -/
theorem camera_rotate_clamp_spec_witness :
    pitchBound < (applyRotations (Camera.new 1) []).rotation.x + 4 ∧
    ((applyRotations (Camera.new 1) []).rotate 4 0).rotation.x = pitchBound := by
  have h : pitchBound < (applyRotations (Camera.new 1) []).rotation.x + 4 := by
    rw [show (applyRotations (Camera.new 1) []).rotation.x = 0 from rfl]
    unfold pitchBound
    nlinarith [Real.pi_lt_d2]
  exact ⟨h, (camera_rotate_clamp_spec 1 []).2.2.1 4 0 h⟩

/-! ### C3: Camera.tm view-projection composition -/

theorem applyRotations_const_fields :
    ∀ (ds : List (ℝ × ℝ)) (c : Camera),
      (applyRotations c ds).aspect = c.aspect ∧
      (applyRotations c ds).fovy = c.fovy ∧
      (applyRotations c ds).near_bound = c.near_bound ∧
      (applyRotations c ds).far_bound = c.far_bound ∧
      (applyRotations c ds).position = c.position ∧
      (applyRotations c ds).look_at = c.look_at
  | [], _ => ⟨rfl, rfl, rfl, rfl, rfl, rfl⟩
  | d :: ds, c => applyRotations_const_fields ds (c.rotate d.1 d.2)

/-- Claim C3: for every camera state reachable from `Camera::new(aspect)`
(any rotate history), `Camera::tm` equals the perspective matrix built from
the fixed `fovy = 1.4`, the aspect ratio, `near = 0.1`, `far = 1000`,
multiplied by the right-handed look-at view matrix whose eye is
`Ryaw * Rpitch` applied to the base eye point `(0,0,2)`, aimed at the origin
with up vector `(0,1,0)`. -/
theorem camera_tm_composition (a : ℝ) (ds : List (ℝ × ℝ)) :
    (applyRotations (Camera.new a) ds).tm =
      newPerspective a 1.4 0.1 1000 *
        lookAtRh
          (transformPoint
            (newRotation ⟨0, (applyRotations (Camera.new a) ds).rotation.y, 0⟩ *
              newRotation ⟨(applyRotations (Camera.new a) ds).rotation.x, 0, 0⟩)
            ⟨0, 0, 2⟩)
          ⟨0, 0, 0⟩ ⟨0, 1, 0⟩ := by
  obtain ⟨h1, h2, h3, h4, h5, h6⟩ := applyRotations_const_fields ds (Camera.new a)
  rw [Camera.tm, h1, h2, h3, h4, h5, h6]
  rfl

/-! ### C4 and C9: Model.vertex_data -/

theorem zip3_nil_right {α β γ : Type _} (as : List α) (bs : List β) :
    zip3 as bs ([] : List γ) = [] := by
  cases as <;> cases bs <;> rfl

theorem get_map_of_map {α β : Type _} (f : α → β) (l : List α) (k : ℕ)
    (h : k < (l.map f).length) :
    (l.map f).get ⟨k, h⟩ = f (l.get ⟨k, by simpa using h⟩) := by
  simp

theorem vertexRecords_eq (mesh : Mesh) (i : ℕ) :
    mesh.vertexRecords i =
      (zip3 (chunksExact 3 mesh.positions) (chunksExact 3 (normalSource mesh))
        (chunksExact 2 mesh.texcoords)).map fun t =>
          { position := t.1
            normal := t.2.1
            uv := [t.2.2.getD 0 0, 1 - t.2.2.getD 1 0]
            model_idx := u32cast i } := by
  unfold Mesh.vertexRecords normalSource
  by_cases h : mesh.normals.isEmpty <;> simp [h]

theorem vertexRecords_length (mesh : Mesh) (i : ℕ) :
    (mesh.vertexRecords i).length =
      min (min (mesh.positions.length / 3) ((normalSource mesh).length / 3))
        (mesh.texcoords.length / 2) := by
  rw [vertexRecords_eq, List.length_map, length_zip3, length_chunksExact, length_chunksExact,
    length_chunksExact]

theorem vertexRecords_lt_bounds {mesh : Mesh} {i k : ℕ}
    (hk : k < (mesh.vertexRecords i).length) :
    k < mesh.positions.length / 3 ∧ k < (normalSource mesh).length / 3 ∧
      k < mesh.texcoords.length / 2 := by
  rw [vertexRecords_length] at hk
  omega

theorem vertexRecords_get (mesh : Mesh) (i k : ℕ)
    (hk : k < (mesh.vertexRecords i).length) :
    (mesh.vertexRecords i).get ⟨k, hk⟩ =
      { position := (mesh.positions.drop (3 * k)).take 3
        normal := ((normalSource mesh).drop (3 * k)).take 3
        uv := [((mesh.texcoords.drop (2 * k)).take 2).getD 0 0,
               1 - ((mesh.texcoords.drop (2 * k)).take 2).getD 1 0]
        model_idx := u32cast i } := by
  obtain ⟨hp, hn, ht⟩ := vertexRecords_lt_bounds hk
  rw [List.get_of_eq (vertexRecords_eq mesh i), get_map_of_map,
    get_zip3 _ _ _ k _ (by simpa using hp) (by simpa using hn) (by simpa using ht),
    get_chunksExact, get_chunksExact, get_chunksExact]

theorem vertexRecords_model_idx (mesh : Mesh) (i : ℕ) :
    ∀ v ∈ mesh.vertexRecords i, v.model_idx = i % 2 ^ 32 := by
  intro v hv
  rw [vertexRecords_eq] at hv
  obtain ⟨t, _, rfl⟩ := List.mem_map.mp hv
  rfl

theorem vertexRecords_normal_zero (mesh : Mesh) (i : ℕ) (h : mesh.normals = []) :
    ∀ v ∈ mesh.vertexRecords i, v.normal = [0, 0, 0] := by
  intro v hv
  obtain ⟨⟨k, hk⟩, hgv⟩ := List.mem_iff_get.mp hv
  rw [← hgv, vertexRecords_get]
  obtain ⟨hp, hn, ht⟩ := vertexRecords_lt_bounds hk
  have hns : normalSource mesh = List.replicate mesh.positions.length 0 := by
    simp [normalSource, h]
  rw [hns] at hn ⊢
  simp only [List.length_replicate] at hn
  have h3 : 3 * k + 2 < mesh.positions.length := bound_of_lt_div (by norm_num) hn
  simp [List.drop_replicate, List.take_replicate]
  rw [show min 3 (mesh.positions.length - 3 * k) = 3 by omega]
  rfl

theorem vertexRecords_position (mesh : Mesh) (i k : ℕ)
    (hk : k < (mesh.vertexRecords i).length) :
    ∃ h3 : 3 * k + 2 < mesh.positions.length,
      ((mesh.vertexRecords i).get ⟨k, hk⟩).position =
        [mesh.positions.get ⟨3 * k, by omega⟩, mesh.positions.get ⟨3 * k + 1, by omega⟩,
         mesh.positions.get ⟨3 * k + 2, h3⟩] := by
  obtain ⟨hp, hn, ht⟩ := vertexRecords_lt_bounds hk
  have h3 : 3 * k + 2 < mesh.positions.length := bound_of_lt_div (by norm_num) hp
  refine ⟨h3, ?_⟩
  rw [vertexRecords_get mesh i k hk]
  exact drop_take_three mesh.positions (3 * k) h3

theorem vertexRecords_normal_present (mesh : Mesh) (i k : ℕ)
    (hk : k < (mesh.vertexRecords i).length) (hne : mesh.normals ≠ []) :
    ∃ h4 : 3 * k + 2 < mesh.normals.length,
      ((mesh.vertexRecords i).get ⟨k, hk⟩).normal =
        [mesh.normals.get ⟨3 * k, by omega⟩, mesh.normals.get ⟨3 * k + 1, by omega⟩,
         mesh.normals.get ⟨3 * k + 2, h4⟩] := by
  obtain ⟨hp, hn, ht⟩ := vertexRecords_lt_bounds hk
  have hns : normalSource mesh = mesh.normals := by
    simp [normalSource, hne]
  rw [hns] at hn
  have h4 : 3 * k + 2 < mesh.normals.length := bound_of_lt_div (by norm_num) hn
  refine ⟨h4, ?_⟩
  rw [vertexRecords_get mesh i k hk, hns]
  exact drop_take_three mesh.normals (3 * k) h4

theorem vertexRecords_uv (mesh : Mesh) (i k : ℕ)
    (hk : k < (mesh.vertexRecords i).length) :
    ∃ h2 : 2 * k + 1 < mesh.texcoords.length,
      ((mesh.vertexRecords i).get ⟨k, hk⟩).uv =
        [mesh.texcoords.get ⟨2 * k, by omega⟩,
         1 - mesh.texcoords.get ⟨2 * k + 1, h2⟩] := by
  obtain ⟨hp, hn, ht⟩ := vertexRecords_lt_bounds hk
  have h2 : 2 * k + 1 < mesh.texcoords.length := by
    have := bound_of_lt_div (n := 2) (by norm_num) ht
    omega
  refine ⟨h2, ?_⟩
  rw [vertexRecords_get mesh i k hk, drop_take_two mesh.texcoords (2 * k) h2]
  rfl

/-- Claim C9: per mesh, the number of `VertexData` records equals the
minimum of `⌊positions.len/3⌋`, `⌊normalArray.len/3⌋` (where the normal
array is the zero substitute, of the positions' length, when the mesh's
normals are empty) and `⌊texcoords.len/2⌋`, because the lockstep zip stops
at the shortest chunked input; in particular a mesh with non-empty positions
but an empty UV array yields an empty record sequence. -/
theorem vertex_count_min_spec (m : Model) (i j : ℕ) (hj : j < m.meshes.length) :
    ((m.vertex_data i).get ⟨j, by simpa [Model.vertex_data] using hj⟩).length =
      min (min ((m.meshes.get ⟨j, hj⟩).positions.length / 3)
        ((normalSource (m.meshes.get ⟨j, hj⟩)).length / 3))
        ((m.meshes.get ⟨j, hj⟩).texcoords.length / 2) ∧
    (normalSource (m.meshes.get ⟨j, hj⟩)).length =
      (if (m.meshes.get ⟨j, hj⟩).normals = [] then (m.meshes.get ⟨j, hj⟩).positions.length
       else (m.meshes.get ⟨j, hj⟩).normals.length) ∧
    ((m.meshes.get ⟨j, hj⟩).texcoords = [] →
      (m.vertex_data i).get ⟨j, by simpa [Model.vertex_data] using hj⟩ = []) := by
  have hget : (m.vertex_data i).get ⟨j, by simpa [Model.vertex_data] using hj⟩ =
      (m.meshes.get ⟨j, hj⟩).vertexRecords i := by
    unfold Model.vertex_data
    exact get_map_of_map _ m.meshes j _
  refine ⟨?_, ?_, fun h => ?_⟩
  · rw [hget, vertexRecords_length]
  · rw [normalSource]
    by_cases h : (m.meshes.get ⟨j, hj⟩).normals = []
    · rw [if_pos (by simp only [List.isEmpty_iff]; exact h), if_pos h, List.length_replicate]
    · rw [if_neg (by simp only [List.isEmpty_iff]; exact h), if_neg h]
  · rw [hget, vertexRecords_eq, h]
    rw [show chunksExact 2 ([] : List ℝ) = [] from rfl, zip3_nil_right]
    rfl

/-- Witness for `vertex_count_min_spec`: a mesh with three position entries
but no UVs produces no vertex records. -/
theorem vertex_count_min_spec_witness :
    (modelNoUV.vertex_data 0).get ⟨0, by simp [Model.vertex_data, modelNoUV]⟩ = [] :=
  (vertex_count_min_spec modelNoUV 0 0 (by simp [modelNoUV])).2.2 rfl

/-- Claim C4 is false as stated: `model_idx` is stored through an `as u32`
cast, so calling `vertex_data` with model index `2 ^ 32` tags the records
with `0`, not with the index. -/
theorem vertex_data_counterexample :
    ∃ v ∈ (modelEx.vertex_data (2 ^ 32)).getD 0 [], v.model_idx ≠ 2 ^ 32 := by
  refine ⟨⟨[1, 2, 3], [0, 0, 0], [1 / 2, 1 - 1 / 4], 0⟩, ?_, by norm_num⟩
  have : (modelEx.vertex_data (2 ^ 32)).getD 0 [] =
      [⟨[1, 2, 3], [0, 0, 0], [1 / 2, 1 - 1 / 4], 0⟩] := by
    simp [modelEx, Model.vertex_data, meshEx, Mesh.vertexRecords, chunksExact, zip3, u32cast,
      List.replicate]
  rw [this]
  exact List.mem_singleton.mpr rfl

/-- Claim C4 (amended): per mesh, `Model::vertex_data(i)` zips the chunked
flat position/normal/UV arrays element-wise into `VertexData` records; each
record is tagged with `i % 2 ^ 32` (the `as u32` cast of `i`, equal to `i`
whenever `i < 2 ^ 32`); when the mesh's normal array is empty every output
normal is the zero vector and the substituted array has the position array's
length; every output UV has `u` unchanged and `v` component `1 - rawV`. -/
theorem vertex_data_fields_spec (m : Model) (i j : ℕ) (hj : j < m.meshes.length) :
    ((m.vertex_data i).get ⟨j, by simpa [Model.vertex_data] using hj⟩ =
      (m.meshes.get ⟨j, hj⟩).vertexRecords i) ∧
    (∀ v ∈ (m.meshes.get ⟨j, hj⟩).vertexRecords i, v.model_idx = i % 2 ^ 32) ∧
    ((m.meshes.get ⟨j, hj⟩).normals = [] →
      (∀ v ∈ (m.meshes.get ⟨j, hj⟩).vertexRecords i, v.normal = [0, 0, 0]) ∧
      (List.replicate (m.meshes.get ⟨j, hj⟩).positions.length (0 : ℝ)).length =
        (m.meshes.get ⟨j, hj⟩).positions.length) ∧
    (∀ k (hk : k < ((m.meshes.get ⟨j, hj⟩).vertexRecords i).length),
      ∃ h3 : 3 * k + 2 < (m.meshes.get ⟨j, hj⟩).positions.length,
        (((m.meshes.get ⟨j, hj⟩).vertexRecords i).get ⟨k, hk⟩).position =
          [(m.meshes.get ⟨j, hj⟩).positions.get ⟨3 * k, by omega⟩,
           (m.meshes.get ⟨j, hj⟩).positions.get ⟨3 * k + 1, by omega⟩,
           (m.meshes.get ⟨j, hj⟩).positions.get ⟨3 * k + 2, h3⟩]) ∧
    ((m.meshes.get ⟨j, hj⟩).normals ≠ [] →
      ∀ k (hk : k < ((m.meshes.get ⟨j, hj⟩).vertexRecords i).length),
        ∃ h4 : 3 * k + 2 < (m.meshes.get ⟨j, hj⟩).normals.length,
          (((m.meshes.get ⟨j, hj⟩).vertexRecords i).get ⟨k, hk⟩).normal =
            [(m.meshes.get ⟨j, hj⟩).normals.get ⟨3 * k, by omega⟩,
             (m.meshes.get ⟨j, hj⟩).normals.get ⟨3 * k + 1, by omega⟩,
             (m.meshes.get ⟨j, hj⟩).normals.get ⟨3 * k + 2, h4⟩]) ∧
    (∀ k (hk : k < ((m.meshes.get ⟨j, hj⟩).vertexRecords i).length),
      ∃ h2 : 2 * k + 1 < (m.meshes.get ⟨j, hj⟩).texcoords.length,
        (((m.meshes.get ⟨j, hj⟩).vertexRecords i).get ⟨k, hk⟩).uv =
          [(m.meshes.get ⟨j, hj⟩).texcoords.get ⟨2 * k, by omega⟩,
           1 - (m.meshes.get ⟨j, hj⟩).texcoords.get ⟨2 * k + 1, h2⟩]) := by
  refine ⟨?_, vertexRecords_model_idx _ i, fun h => ⟨vertexRecords_normal_zero _ i h, by simp⟩,
    fun k hk => vertexRecords_position _ i k hk,
    fun hne k hk => vertexRecords_normal_present _ i k hk hne,
    fun k hk => vertexRecords_uv _ i k hk⟩
  unfold Model.vertex_data
  exact get_map_of_map _ m.meshes j _

/-- Witness for `vertex_data_fields_spec` on a concrete one-vertex mesh with
empty normals, at model index 5. -/
theorem vertex_data_fields_spec_witness :
    (∀ v ∈ (modelEx.meshes.get ⟨0, by simp [modelEx]⟩).vertexRecords 5,
      v.model_idx = 5 % 2 ^ 32) ∧
    (∀ v ∈ (modelEx.meshes.get ⟨0, by simp [modelEx]⟩).vertexRecords 5,
      v.normal = [0, 0, 0]) :=
  ⟨(vertex_data_fields_spec modelEx 5 0 (by simp [modelEx])).2.1,
   ((vertex_data_fields_spec modelEx 5 0 (by simp [modelEx])).2.2.1 rfl).1⟩

/-! ### C6: draw submission order and per-mesh buffers -/

theorem getD_of_lt {α : Type _} (l : List α) (i : ℕ) (d : α) (h : i < l.length) :
    l.getD i d = l.get ⟨i, h⟩ := by
  induction l generalizing i with
  | nil => simp at h
  | cons a t ih =>
    cases i with
    | zero => rfl
    | succ n => exact ih n (by simpa using h)

theorem flatMap_congr_mem {α β : Type _} {l : List α} {f g : α → List β}
    (h : ∀ a ∈ l, f a = g a) : l.flatMap f = l.flatMap g := by
  induction l with
  | nil => rfl
  | cons a t ih =>
    simp only [List.flatMap_cons]
    rw [h a (by simp), ih fun b hb => h b (by simp [hb])]

theorem length_flatMap_sum {α β : Type _} (l : List α) (f : α → List β) :
    (l.flatMap f).length = (l.map fun a => (f a).length).sum := by
  induction l with
  | nil => rfl
  | cons a t ih => simp [ih]

theorem range_map_getD {α β : Type _} (l : List α) (d : α) (g : α → β) :
    (List.range l.length).map (fun i => g (l.getD i d)) = l.map g := by
  induction l with
  | nil => rfl
  | cons a t ih =>
    rw [List.length_cons, List.range_succ_eq_map]
    simp only [List.map_cons, List.map_map]
    refine congrArg₂ _ rfl ?_
    simpa [Function.comp_def] using ih

theorem createResources_vertexBuffers_getD (s : Scene) (ss : ℕ × ℕ) (mi : ℕ)
    (h : mi < s.models.length) :
    (createResources ss s.camera s.textures_map s.models).vertexBuffers.getD mi [] =
      (s.models.get ⟨mi, h⟩).vertex_data mi := by
  have hlen : mi < (createResources ss s.camera s.textures_map s.models).vertexBuffers.length := by
    simpa [createResources] using h
  rw [getD_of_lt _ _ _ hlen]
  show (s.models.enum.map fun p => p.2.vertex_data p.1).get ⟨mi, by simpa using h⟩ = _
  rw [get_map_of_map, List.get_eq_getElem, List.getElem_enum]
  rfl

theorem createResources_indexBuffers_getD (s : Scene) (ss : ℕ × ℕ) (mi : ℕ)
    (h : mi < s.models.length) :
    (createResources ss s.camera s.textures_map s.models).indexBuffers.getD mi [] =
      (s.models.get ⟨mi, h⟩).meshes.map fun mesh => mesh.indices := by
  have hlen : mi < (createResources ss s.camera s.textures_map s.models).indexBuffers.length := by
    simpa [createResources] using h
  rw [getD_of_lt _ _ _ hlen]
  show (s.models.map fun model => model.meshes.map fun mesh => mesh.indices).get
      ⟨mi, by simpa using h⟩ = _
  rw [get_map_of_map]

/-- Claim C6 (amended): one `Renderer::render` call issues exactly one
indexed draw per mesh — `Σ` over models of their mesh counts — iterating
models in `Scene` order and meshes in mesh order; each draw binds that mesh's
own vertex and index buffer and uses instance count 1; the covered index
range is `0 .. indices.len() as u32`, i.e. the mesh's index count modulo
`2 ^ 32` (exactly the index count whenever it is below `2 ^ 32`);
`create_resources` builds exactly one vertex buffer and one index buffer per
mesh. -/
theorem render_draws_spec (s : Scene) (ss : ℕ × ℕ) :
    renderDraws s ss = drawsPerMeshInOrder s ∧
    (renderDraws s ss).length = (s.models.map fun model => model.meshes.length).sum ∧
    (∀ mi (h : mi < s.models.length),
      ((createResources ss s.camera s.textures_map s.models).vertexBuffers.get
          ⟨mi, by simpa [createResources] using h⟩).length =
        (s.models.get ⟨mi, h⟩).meshes.length ∧
      ((createResources ss s.camera s.textures_map s.models).indexBuffers.get
          ⟨mi, by simpa [createResources] using h⟩).length =
        (s.models.get ⟨mi, h⟩).meshes.length) := by
  refine ⟨?_, ?_, fun mi h => ⟨?_, ?_⟩⟩
  · unfold renderDraws drawsPerMeshInOrder
    refine flatMap_congr_mem fun mi hmi => ?_
    have hmi2 : mi < s.models.length := List.mem_range.mp hmi
    rw [getD_of_lt s.models mi default hmi2]
    rw [createResources_vertexBuffers_getD s ss mi hmi2,
      createResources_indexBuffers_getD s ss mi hmi2]
    refine List.map_congr_left fun ji hji => ?_
    have hji2 : ji < (s.models.get ⟨mi, hmi2⟩).meshes.length := List.mem_range.mp hji
    rw [getD_of_lt _ _ _ hji2]
    have hvd : ((s.models.get ⟨mi, hmi2⟩).vertex_data mi).getD ji [] =
        ((s.models.get ⟨mi, hmi2⟩).meshes.get ⟨ji, hji2⟩).vertexRecords mi := by
      rw [getD_of_lt _ _ _ (by simpa [Model.vertex_data] using hji2)]
      unfold Model.vertex_data
      rw [get_map_of_map]
    have hib : (((s.models.get ⟨mi, hmi2⟩).meshes.map fun mesh => mesh.indices).getD ji []) =
        ((s.models.get ⟨mi, hmi2⟩).meshes.get ⟨ji, hji2⟩).indices := by
      rw [getD_of_lt _ _ _ (by simpa using hji2)]
      rw [get_map_of_map]
    rw [hvd, hib]
  · unfold renderDraws
    rw [length_flatMap_sum]
    simp only [List.length_map, List.length_range]
    exact congrArg List.sum (range_map_getD s.models default fun model => model.meshes.length)
  · have hget : (createResources ss s.camera s.textures_map s.models).vertexBuffers.get
        ⟨mi, by simpa [createResources] using h⟩ =
        (s.models.get ⟨mi, h⟩).vertex_data mi := by
      rw [← createResources_vertexBuffers_getD s ss mi h,
        getD_of_lt _ _ _ (by simpa [createResources] using h)]
    rw [hget]
    simp [Model.vertex_data]
  · have hget : (createResources ss s.camera s.textures_map s.models).indexBuffers.get
        ⟨mi, by simpa [createResources] using h⟩ =
        (s.models.get ⟨mi, h⟩).meshes.map fun mesh => mesh.indices := by
      rw [← createResources_indexBuffers_getD s ss mi h,
        getD_of_lt _ _ _ (by simpa [createResources] using h)]
    rw [hget]
    simp

/-- Witness for `render_draws_spec`: in the two-model scene (one single-mesh
model, one two-mesh model) `create_resources` builds one vertex buffer and
one index buffer for the first model's single mesh. -/
theorem render_draws_spec_witness :
    ((createResources (800, 600) sceneSmall.camera sceneSmall.textures_map
        sceneSmall.models).vertexBuffers.get
      ⟨0, by simp [createResources, sceneSmall]⟩).length =
      (sceneSmall.models.get ⟨0, by simp [sceneSmall]⟩).meshes.length ∧
    ((createResources (800, 600) sceneSmall.camera sceneSmall.textures_map
        sceneSmall.models).indexBuffers.get
      ⟨0, by simp [createResources, sceneSmall]⟩).length =
      (sceneSmall.models.get ⟨0, by simp [sceneSmall]⟩).meshes.length :=
  (render_draws_spec sceneSmall (800, 600)).2.2 0 (by simp [sceneSmall])

/-- Claim C6 is false as stated on index counts: a mesh with `2 ^ 32` indices
is drawn with `draw_indexed(0..(2 ^ 32 as u32)) = draw_indexed(0..0)`, so the
draw does not cover the mesh's index count. -/
theorem render_draws_counterexample :
    ∃ d ∈ renderDraws sceneHuge (640, 480),
      d.ib = hugeIndices ∧ hugeIndices.length = 2 ^ 32 ∧ d.indexCount = 0 := by
  have hlen : hugeIndices.length = 2 ^ 32 := by
    rw [hugeIndices, List.length_replicate]
  refine ⟨⟨[], hugeIndices, 0, 1⟩, ?_, rfl, hlen, rfl⟩
  have h1 : renderDraws sceneHuge (640, 480) = [⟨[], hugeIndices, 0, 1⟩] := by
    have h0 : (0 : ℕ) < sceneHuge.models.length := by simp [sceneHuge]
    unfold renderDraws
    rw [show sceneHuge.models.length = 1 from rfl]
    rw [show List.range 1 = [0] from rfl]
    simp only [List.flatMap_cons, List.flatMap_nil, List.append_nil]
    rw [createResources_vertexBuffers_getD sceneHuge (640, 480) 0 h0,
      createResources_indexBuffers_getD sceneHuge (640, 480) 0 h0]
    simp [sceneHuge, Mesh.vertexRecords, chunksExact, u32cast, Model.vertex_data, hlen]
    rw [show List.range 1 = [0] from rfl]
    simp [hlen]
  rw [h1]
  exact List.mem_singleton.mpr rfl

/-! ### C7: render with no surface / failing acquisition -/

/-- Claim C7: `Renderer::render` returns success without acquiring an image
or submitting any draw when no presentation surface is attached; when a
surface is attached and acquiring the next image fails, the surface error is
returned to the caller for that frame, after exactly one acquisition attempt
(no retry) and with no surface reconfiguration and nothing presented. -/
theorem render_surface_error_spec (r : Renderer) (ss : ℕ × ℕ) (scene : Scene)
    (acq : List (Except SurfaceError Unit)) :
    (r.surface = none →
      r.render ss scene acq = (Except.ok (), ⟨0, [], false, false⟩)) ∧
    (∀ (sz : ℕ × ℕ) (e : SurfaceError) (rest : List (Except SurfaceError Unit)),
      r.surface = some sz → acq = Except.error e :: rest →
      r.render ss scene acq = (Except.error e, ⟨1, [], false, false⟩)) := by
  constructor
  · intro h
    unfold Renderer.render
    rw [h]
  · intro sz e rest hs ha
    unfold Renderer.render
    rw [hs, ha]
    rfl

/-- Witness for `render_surface_error_spec`: a renderer without a surface
no-ops successfully; one with a surface propagates a `Lost` acquisition
error with a single acquisition attempt. -/
theorem render_surface_error_spec_witness :
    rendererNoSurface.surface = none ∧
    rendererNoSurface.render (640, 480) sceneSmall [] = (Except.ok (), ⟨0, [], false, false⟩) ∧
    rendererWithSurface.surface = some (640, 480) ∧
    rendererWithSurface.render (640, 480) sceneSmall [Except.error SurfaceError.lost] =
      (Except.error SurfaceError.lost, ⟨1, [], false, false⟩) :=
  ⟨rfl, (render_surface_error_spec rendererNoSurface (640, 480) sceneSmall []).1 rfl, rfl,
    (render_surface_error_spec rendererWithSurface (640, 480) sceneSmall
      [Except.error SurfaceError.lost]).2 (640, 480) SurfaceError.lost [] rfl rfl⟩
